import Mathlib

/-!
Shallow embedding of the address model of the `uds` crate (`src/addr.rs`).

The Rust code manipulates a `sockaddr_un` (a family tag followed by a
fixed-capacity `sun_path` byte array) together with a separately tracked
used length (`len : socklen_t`).  Several constants are platform dependent:

* `famSize`  models `mem::size_of::<sa_family_t>()` (2 on Linux, 1 on the
  BSDs and macOS, where `sa_family_t` is a `u8` preceded by a `sun_len` byte);
* `offset`   models `path_offset()`, i.e.
  `size_of::<sockaddr_un>() - size_of(sun_path)`;
* `capacity` models `size_of(sun_path)` (108 on Linux, 104 on macOS);
* `hasAbstract` models `cfg!(any(target_os="linux", target_os="android"))`,
  the value returned by `UnixSocketAddr::has_abstract_addresses()`.

`sun_path` is modelled as a `List Nat` of byte values; `sun_path` is the last
field of `sockaddr_un` on every supported platform, so
`size_of::<sockaddr_un>() = offset + capacity`.
-/

namespace Uds

/-- Platform-dependent layout constants of `sockaddr_un` and the
abstract-namespace capability. -/
structure Platform where
  famSize : Nat
  offset : Nat
  capacity : Nat
  hasAbstract : Bool
  osName : String
  capacity_pos : 0 < capacity
  famSize_le_offset : famSize ≤ offset

/-- Layout constants of Linux (x86-64): `sa_family_t = u16`,
`sun_path : [c_char; 108]`, abstract addresses supported. -/
def linuxP : Platform := ⟨2, 2, 108, true, "linux", by decide, by decide⟩

/-- Layout constants of macOS: `sun_len : u8` then `sa_family_t = u8`, so the
family size is 1 while the path offset is 2; `sun_path : [c_char; 104]`;
no abstract addresses. -/
def macosP : Platform := ⟨1, 2, 104, false, "macos", by decide, by decide⟩

/-- `libc::AF_UNIX` (the value is 1 on all supported platforms). -/
def AF_UNIX : Nat := 1

/-- `path_offset()` from src/addr.rs: offset of `.sun_path` in `sockaddr_un`,
computed as total size minus the size of the path field. -/
def path_offset (p : Platform) : Nat := (p.offset + p.capacity) - p.capacity

/-- The struct `UnixSocketAddr` of src/addr.rs: a `sockaddr_un`
(`sun_family` tag plus `sun_path` byte buffer) and the number `len` of bytes
of the structure that are in use. -/
structure UnixSocketAddr where
  sun_family : Nat
  sun_path : List Nat
  len : Nat
deriving DecidableEq, Repr

/-- The enum `UnixSocketAddrRef` of src/addr.rs (payloads as byte lists). -/
inductive UnixSocketAddrRef where
  | Unnamed : UnixSocketAddrRef
  | Path (path : List Nat) : UnixSocketAddrRef
  | Abstract (name : List Nat) : UnixSocketAddrRef
deriving DecidableEq, Repr

/-- The error kinds of `std::io::ErrorKind` used by src/addr.rs. -/
inductive ErrorKind where
  | NotFound
  | InvalidInput
  | InvalidData
  | AddrNotAvailable
deriving DecidableEq, Repr

/-- An `std::io::Error` built by `io::Error::new(kind, message)`. -/
structure IOError where
  kind : ErrorKind
  msg : String
deriving DecidableEq, Repr

/-- `impl From<&UnixSocketAddr> for UnixSocketAddrRef` (src/addr.rs:100):
the view derivation.  `name_len = len - offset` computed in `isize`; the
`≤ 0` test becomes `len ≤ offset` on `Nat`.  `sun_path[0]` is modelled with
`getD` (the Rust index cannot fail since `capacity > 0`). -/
def UnixSocketAddrRef.from (p : Platform) (addr : UnixSocketAddr) : UnixSocketAddrRef :=
  if addr.len ≤ path_offset p then
    .Unnamed
  else
    let name_len := addr.len - path_offset p
    if addr.sun_path.getD 0 0 = 0 then
      .Abstract ((addr.sun_path.take name_len).drop 1)
    else
      let slice := addr.sun_path.take name_len
      if slice.getLast? = some 0 then
        .Path (slice.take (name_len - 1))
      else
        .Path slice

namespace UnixSocketAddr

/-- `UnixSocketAddr::as_ref` (src/addr.rs:412). -/
def as_ref (p : Platform) (addr : UnixSocketAddr) : UnixSocketAddrRef :=
  UnixSocketAddrRef.from p addr

/-- `UnixSocketAddr::has_abstract_addresses` (src/addr.rs:294). -/
def has_abstract_addresses (p : Platform) : Bool := p.hasAbstract

/-- `UnixSocketAddr::new_unspecified` (src/addr.rs:231): a zeroed
`sockaddr_un` with the family tag set, and `len = size_of::<sa_family_t>()`. -/
def new_unspecified (p : Platform) : UnixSocketAddr :=
  { sun_family := AF_UNIX
    sun_path := List.replicate p.capacity 0
    len := p.famSize }

/-- `UnixSocketAddr::max_path_len` (src/addr.rs:244). -/
def max_path_len (p : Platform) : Nat := p.capacity

/-- `UnixSocketAddr::max_abstract_len` (src/addr.rs:286). -/
def max_abstract_len (p : Platform) : Nat := p.capacity - 1

end UnixSocketAddr

/-- `for (dst, src) in dst.iter_mut().zip(src) { *dst = *src }`: overwrite a
prefix of `dst` with `src`, stopping at the shorter of the two. -/
def zipOverwrite (dst src : List Nat) : List Nat :=
  src.take dst.length ++ dst.drop src.length

namespace UnixSocketAddr

/-- `UnixSocketAddr::from_path` (src/addr.rs:254), on the byte content of the
path argument. -/
def from_path (p : Platform) (path : List Nat) : Except IOError UnixSocketAddr :=
  let addr := new_unspecified p
  let capacity := p.capacity
  if path.isEmpty then
    .error ⟨.NotFound, "path is empty"⟩
  else if path.length > capacity then
    .error ⟨.InvalidInput, "path is too long for an unix socket address"⟩
  else if path.any (· = 0) then
    .error ⟨.InvalidInput, "path cannot contain nul bytes"⟩
  else
    let len0 := path_offset p + path.length
    .ok { addr with
          sun_path := zipOverwrite addr.sun_path path
          len := if path.length < capacity then len0 + 1 else len0 }

/-- `UnixSocketAddr::from_abstract` (src/addr.rs:317), on the byte content of
the name argument. -/
def from_abstract (p : Platform) (name : List Nat) : Except IOError UnixSocketAddr :=
  let addr := new_unspecified p
  if ¬ has_abstract_addresses p then
    .error ⟨.AddrNotAvailable,
      "abstract unix domain socket addresses are not available on " ++ p.osName⟩
  else if name.length > max_abstract_len p then
    .error ⟨.InvalidInput, "abstract name is too long"⟩
  else
    .ok { addr with
          sun_path := addr.sun_path.take 1 ++ zipOverwrite (addr.sun_path.drop 1) name
          len := path_offset p + 1 + name.length }

/-- `UnixSocketAddr::new` (src/addr.rs:200), on the byte content of the
argument: `match addr.first()` delegates a leading `'@'` (64) or NUL byte to
`from_abstract` on the remainder, `None` to the unnamed address, and any
other first byte to `from_path` on the whole input. -/
def new (p : Platform) (addr : List Nat) : Except IOError UnixSocketAddr :=
  match addr with
  | [] => .ok (new_unspecified p)
  | first :: rest =>
    if first = 64 ∨ first = 0 then from_abstract p rest
    else from_path p (first :: rest)

/-- `UnixSocketAddr::is_unnamed` (src/addr.rs:382). -/
def is_unnamed (p : Platform) (a : UnixSocketAddr) : Bool :=
  if has_abstract_addresses p then
    a.len ≤ path_offset p
  else
    a.len ≤ path_offset p || a.sun_path.getD 0 0 = 0

/-- `UnixSocketAddr::is_abstract` (src/addr.rs:391). -/
def is_abstract (p : Platform) (a : UnixSocketAddr) : Bool :=
  if has_abstract_addresses p then
    a.len > path_offset p && a.sun_path.getD 0 0 = 0
  else
    false

/-- `UnixSocketAddr::is_path` (src/addr.rs:406). -/
def is_path (p : Platform) (a : UnixSocketAddr) : Bool :=
  a.len > path_offset p && a.sun_path.getD 0 0 ≠ 0

/-- `mem::size_of_val(&addr.addr)`, the size of the whole `sockaddr_un`
(`sun_path` is its last field, and a `c_char` array forces no padding). -/
def size_of_sockaddr_un (p : Platform) : Nat := p.offset + p.capacity

/-- The validation and normalization `new_from_ffi` applies to the buffer
after the callback returns (src/addr.rs:436-464); `capacity` there is the
size of the whole `sockaddr_un`. -/
def ffi_validate {R : Type} (p : Platform) (ret : R) (addr : UnixSocketAddr) :
    Except IOError (R × UnixSocketAddr) :=
  if addr.sun_family ≠ AF_UNIX then
    .error ⟨.InvalidData, "file descriptor did not correspond to a Unix socket"⟩
  else if is_abstract p addr then
    if addr.len > size_of_sockaddr_un p then
      .error ⟨.InvalidData, "abstract name was too long"⟩
    else
      .ok (ret, addr)
  else if is_path p addr then
    if addr.len > size_of_sockaddr_un p + 1 then
      .error ⟨.InvalidData, "path was too long"⟩
    else if addr.len ≥ size_of_sockaddr_un p then
      .ok (ret, { addr with len := size_of_sockaddr_un p })
    else if addr.sun_path.getD (addr.len - 1 - path_offset p) 0 ≠ 0 then
      .ok (ret, { addr with
                  len := addr.len + 1
                  sun_path := addr.sun_path.set (addr.len - path_offset p) 0 })
    else
      .ok (ret, addr)
  else
    .ok (ret, addr)

/-- `UnixSocketAddr::new_from_ffi` (src/addr.rs:428).  The caller-supplied
operation receives the initialized buffer (mutable `sockaddr` and `socklen_t`
pointers) and is modelled as a function from that buffer to either an error
or a result value paired with the mutated buffer. -/
def new_from_ffi {R : Type} (p : Platform)
    (call : UnixSocketAddr → Except IOError (R × UnixSocketAddr)) :
    Except IOError (R × UnixSocketAddr) :=
  match call { new_unspecified p with len := size_of_sockaddr_un p } with
  | .error e => .error e
  | .ok (ret, addr) => ffi_validate p ret addr

end UnixSocketAddr

/-- The memory a non-null `*const sockaddr` argument of `from_raw` points to:
the family tag, and the bytes of memory starting at the `sun_path` field. -/
structure RawSockaddr where
  sa_family : Nat
  sun_path_mem : List Nat
deriving DecidableEq, Repr

/-- Outcome of running `from_raw`: `Ok`, `Err`, or a Rust panic. -/
inductive RawResult where
  | ok (addr : UnixSocketAddr)
  | err (e : IOError)
  | panicked (msg : String)
deriving DecidableEq, Repr

/-- `<[T]>::copy_from_slice(src)`: copies when the lengths match and panics
otherwise (modelled as `none`). -/
def copy_from_slice (dst src : List Nat) : Option (List Nat) :=
  if src.length = dst.length then some src else none

namespace UnixSocketAddr

/-- `UnixSocketAddr::from_raw` (src/addr.rs:475).  A NULL pointer is `none`.
`slice::from_raw_parts(sun_path_ptr, len)` is the first `len` bytes of memory
at the `sun_path` field, and `copy.addr.sun_path.copy_from_slice(sun_path)`
panics when that slice's length differs from the `sun_path` capacity. -/
def from_raw (p : Platform) (addr : Option RawSockaddr) (len : Nat) : RawResult :=
  let copy := new_unspecified p
  match addr with
  | none =>
    if len = 0 then .ok (new_unspecified p)
    else .err ⟨.InvalidInput, "addr is NULL"⟩
  | some raw =>
    if len < path_offset p then
      .err ⟨.InvalidInput, "address length is too low"⟩
    else if len > path_offset p + p.capacity then
      .err ⟨.InvalidInput, "address is too long"⟩
    else if raw.sa_family ≠ AF_UNIX then
      .err ⟨.InvalidData, "not an unix socket address"⟩
    else
      let sun_path := raw.sun_path_mem.take len
      match copy_from_slice copy.sun_path sun_path with
      | none => .panicked "source slice length does not match destination slice length"
      | some written => .ok { copy with sun_path := written, len := len }

end UnixSocketAddr

/-- A component of a `std::path::Path` on Unix (no Windows-style prefixes). -/
inductive PathComponent where
  | RootDir
  | CurDir
  | ParentDir
  | Normal (name : List Nat)
deriving DecidableEq, Repr

/-- `std::path::Path::components()` on Unix, on the byte content of the
path: a leading separator contributes `RootDir`; empty chunks between
separators are skipped; a `"."` chunk is kept as `CurDir` only when the path
has no root and the chunk is the literal start of the path (std's
`include_cur_dir`); `".."` chunks are `ParentDir`; every other chunk is a
`Normal` component compared byte-wise.  `PartialEq for Path` compares these
component sequences, so e.g. `"/a//b"`, `"/a/./b"` and `"/a/b/"` are all
equal paths. -/
def pathComponents (P : List Nat) : List PathComponent :=
  (if P.headD 0 = 47 then [PathComponent.RootDir] else []) ++
    (List.splitOn 47 P).enum.filterMap fun ic =>
      if ic.2 = [] then
        none
      else if ic.2 = [46] then
        if P.headD 0 ≠ 47 ∧ ic.1 = 0 then some .CurDir else none
      else if ic.2 = [46, 46] then
        some .ParentDir
      else
        some (.Normal ic.2)

/-- The derived `PartialEq` of `UnixSocketAddrRef` (src/addr.rs:88):
discriminants must match; `Path` payloads are `&std::path::Path` values and
compare by components; `Abstract` payloads are `&[u8]` and compare by
bytes. -/
def refEq : UnixSocketAddrRef → UnixSocketAddrRef → Bool
  | .Unnamed, .Unnamed => true
  | .Path p₁, .Path p₂ => pathComponents p₁ == pathComponents p₂
  | .Abstract n₁, .Abstract n₂ => n₁ == n₂
  | _, _ => false

/-- The data determining what the derived `Hash` of `UnixSocketAddrRef`
feeds to the hasher: the discriminant, with a `Path` payload contributing
its components (std's `Hash for Path` is documented to agree with its
component-based equality) and an `Abstract` payload its bytes. -/
inductive RefHashData where
  | unnamed
  | path (components : List PathComponent)
  | abstractName (name : List Nat)
deriving DecidableEq, Repr

/-- The component-level view hashed by the derived `Hash` of
`UnixSocketAddrRef`. -/
def hashView : UnixSocketAddrRef → RefHashData
  | .Unnamed => .unnamed
  | .Path pb => .path (pathComponents pb)
  | .Abstract n => .abstractName n

namespace UnixSocketAddr

/-- `impl PartialEq for UnixSocketAddr` (src/addr.rs:556): compares the
derived views with the derived `PartialEq` of `UnixSocketAddrRef`
(component-based for `Path` payloads). -/
def beqAddr (p : Platform) (a b : UnixSocketAddr) : Bool :=
  refEq (as_ref p a) (as_ref p b)

/-- `impl Hash for UnixSocketAddr` (src/addr.rs:562): hashes the derived
view; the hasher is abstracted as an arbitrary function of the data the
derived `Hash` of `UnixSocketAddrRef` feeds it. -/
def hashAddr {H : Type} (p : Platform) (hasher : RefHashData → H)
    (a : UnixSocketAddr) : H :=
  hasher (hashView (as_ref p a))

end UnixSocketAddr

/-- Modelled from the spec, §4.3: the view-derivation pseudocode (`name_len`,
leading-NUL test, trailing-NUL drop), written from the spec's words in order
to compare the code's view derivation against the spec's rule. -/
def specView (p : Platform) (a : UnixSocketAddr) : UnixSocketAddrRef :=
  if a.len ≤ p.offset then
    .Unnamed
  else if a.sun_path.getD 0 0 = 0 then
    .Abstract ((a.sun_path.take (a.len - p.offset)).drop 1)
  else
    let bytes := a.sun_path.take (a.len - p.offset)
    if bytes.getLast? = some 0 then .Path bytes.dropLast
    else .Path bytes

/-- The RawAddressBuffer invariant as the spec states it for C1
(`offset ≤ used_length ≤ total capacity`), together with the structural fact
that the `sun_path` array has exactly `capacity` bytes. -/
def Inv (p : Platform) (a : UnixSocketAddr) : Prop :=
  a.sun_path.length = p.capacity ∧ p.offset ≤ a.len ∧ a.len ≤ p.offset + p.capacity

end Uds

namespace Uds

open UnixSocketAddr

theorem path_offset_eq (p : Platform) : path_offset p = p.offset := by
  unfold path_offset
  omega

theorem getD_zero_eq_of_take_eq {k : Nat} (hk : 1 ≤ k) {l₁ l₂ : List Nat}
    (h : l₁.take k = l₂.take k) : l₁.getD 0 0 = l₂.getD 0 0 := by
  obtain ⟨m, rfl⟩ : ∃ m, k = m + 1 := ⟨k - 1, by omega⟩
  cases l₁ with
  | nil =>
    cases l₂ with
    | nil => rfl
    | cons b t => simp at h
  | cons a s =>
    cases l₂ with
    | nil => simp at h
    | cons b t =>
      simp only [List.take_succ_cons, List.cons.injEq] at h
      simp [List.getD, h.1]

/-- The view derivation reads nothing but `len` and the first `len - offset`
bytes of `sun_path`. -/
theorem view_locality (p : Platform) (b a : UnixSocketAddr) (hlen : b.len = a.len)
    (hpath : b.sun_path.take (a.len - path_offset p)
      = a.sun_path.take (a.len - path_offset p)) :
    UnixSocketAddrRef.from p b = UnixSocketAddrRef.from p a := by
  unfold UnixSocketAddrRef.from
  rw [hlen]
  by_cases hle : a.len ≤ path_offset p
  · simp [hle]
  · have hk : 1 ≤ a.len - path_offset p := by omega
    have h0 : b.sun_path.getD 0 0 = a.sun_path.getD 0 0 :=
      getD_zero_eq_of_take_eq hk hpath
    simp only [hle, if_false, h0, hpath]

/-- View of a buffer holding a non-empty NUL-free path `P` padded with
zeroes, with `used_length = offset + P.length + e` where `e` is 1 when a
terminating NUL is included (requires at least one padding byte) and 0
otherwise: always `Path P`. -/
theorem view_path_core (p : Platform) (f : Nat) (P : List Nat) (k e : Nat)
    (hne : P ≠ []) (hnul : 0 ∉ P) (he : e = 0 ∨ (e = 1 ∧ 1 ≤ k)) :
    UnixSocketAddrRef.from p
      ⟨f, P ++ List.replicate k 0, p.offset + P.length + e⟩ = .Path P := by
  have hP1 : 1 ≤ P.length := List.length_pos.mpr hne
  have hp0 : ¬ (P ++ List.replicate k 0).getD 0 0 = 0 := by
    cases P with
    | nil => exact absurd rfl hne
    | cons p0 t =>
      have hph : p0 ≠ 0 := fun hcon => hnul (hcon ▸ List.mem_cons_self p0 t)
      simp [List.getD, hph]
  have hlast : ¬ P.getLast? = some 0 := by
    intro hcon
    rw [List.getLast?_eq_getLast_of_ne_nil hne] at hcon
    exact hnul (Option.some.inj hcon ▸ List.getLast_mem hne)
  have hle : ¬ ((⟨f, P ++ List.replicate k 0, p.offset + P.length + e⟩ :
      UnixSocketAddr).len ≤ path_offset p) := by
    rw [path_offset_eq]
    show ¬ (p.offset + P.length + e ≤ p.offset)
    omega
  unfold UnixSocketAddrRef.from
  rw [if_neg hle, path_offset_eq]
  show (if (P ++ List.replicate k 0).getD 0 0 = 0 then
      UnixSocketAddrRef.Abstract
        (((P ++ List.replicate k 0).take (p.offset + P.length + e - p.offset)).drop 1)
    else
      if ((P ++ List.replicate k 0).take (p.offset + P.length + e - p.offset)).getLast?
          = some 0 then
        UnixSocketAddrRef.Path
          (((P ++ List.replicate k 0).take (p.offset + P.length + e - p.offset)).take
            (p.offset + P.length + e - p.offset - 1))
      else
        UnixSocketAddrRef.Path
          ((P ++ List.replicate k 0).take (p.offset + P.length + e - p.offset)))
    = UnixSocketAddrRef.Path P
  rw [if_neg hp0]
  have hnl : p.offset + P.length + e - p.offset = P.length + e := by omega
  rw [hnl]
  rcases he with rfl | ⟨rfl, hk⟩
  · have hslice : (P ++ List.replicate k 0).take (P.length + 0) = P := by
      rw [Nat.add_zero]
      exact List.take_left P (List.replicate k 0)
    rw [hslice, if_neg hlast]
  · have hslice : (P ++ List.replicate k 0).take (P.length + 1) = P ++ [0] := by
      rw [List.take_append_eq_append_take, List.take_of_length_le (by omega),
        List.take_replicate]
      have hone : min (P.length + 1 - P.length) k = 1 := by omega
      rw [hone, List.replicate_one]
    rw [hslice, if_pos (List.getLast?_concat P)]
    have htk : P.length + 1 - 1 = P.length := by omega
    rw [htk]
    have : (P ++ [0]).take P.length = P := List.take_left P [0]
    rw [this]

/-- View of a buffer holding the abstract marker byte followed by name `N`
padded with zeroes, with `used_length = offset + 1 + N.length`: always
`Abstract N`. -/
theorem view_abstract_core (p : Platform) (f : Nat) (N : List Nat) (k : Nat) :
    UnixSocketAddrRef.from p
      ⟨f, 0 :: (N ++ List.replicate k 0), p.offset + 1 + N.length⟩ = .Abstract N := by
  have hle : ¬ ((⟨f, 0 :: (N ++ List.replicate k 0), p.offset + 1 + N.length⟩ :
      UnixSocketAddr).len ≤ path_offset p) := by
    rw [path_offset_eq]
    show ¬ (p.offset + 1 + N.length ≤ p.offset)
    omega
  unfold UnixSocketAddrRef.from
  rw [if_neg hle, path_offset_eq]
  show (if (0 :: (N ++ List.replicate k 0)).getD 0 0 = 0 then
      UnixSocketAddrRef.Abstract
        (((0 :: (N ++ List.replicate k 0)).take
          (p.offset + 1 + N.length - p.offset)).drop 1)
    else
      if ((0 :: (N ++ List.replicate k 0)).take
          (p.offset + 1 + N.length - p.offset)).getLast? = some 0 then
        UnixSocketAddrRef.Path
          (((0 :: (N ++ List.replicate k 0)).take
            (p.offset + 1 + N.length - p.offset)).take
            (p.offset + 1 + N.length - p.offset - 1))
      else
        UnixSocketAddrRef.Path
          ((0 :: (N ++ List.replicate k 0)).take (p.offset + 1 + N.length - p.offset)))
    = UnixSocketAddrRef.Abstract N
  rw [if_pos (by simp [List.getD])]
  have hnl : p.offset + 1 + N.length - p.offset = N.length + 1 := by omega
  rw [hnl]
  have hslice : (0 :: (N ++ List.replicate k 0)).take (N.length + 1)
      = 0 :: N := by
    rw [List.take_succ_cons, List.take_append_eq_append_take,
      List.take_of_length_le (by omega), List.take_replicate]
    have hz : min (N.length - N.length) k = 0 := by omega
    rw [hz]
    simp
  rw [hslice]
  simp

theorem zipOverwrite_replicate_zero {n : Nat} {P : List Nat} (h : P.length ≤ n) :
    zipOverwrite (List.replicate n 0) P = P ++ List.replicate (n - P.length) 0 := by
  unfold zipOverwrite
  rw [List.length_replicate, List.take_of_length_le h, List.drop_replicate]

/-- C2: `from_path` fails with `NotFound` on the empty path and with
`InvalidInput` when the path is longer than `max_path_len()` or contains an
embedded NUL; otherwise it succeeds, the derived kind is `Path P`,
`used_length = offset + P.length`, incremented by one more with a
terminating NUL byte appended when `P.length < max_path_len()`. -/
theorem C2_from_path (p : Platform) (P : List Nat) :
    (P = [] → from_path p P = .error ⟨.NotFound, "path is empty"⟩) ∧
    (P.length > max_path_len p →
      from_path p P = .error ⟨.InvalidInput, "path is too long for an unix socket address"⟩) ∧
    (P.length ≤ max_path_len p → 0 ∈ P →
      from_path p P = .error ⟨.InvalidInput, "path cannot contain nul bytes"⟩) ∧
    (P ≠ [] → P.length ≤ max_path_len p → 0 ∉ P →
      ∃ a, from_path p P = .ok a ∧
        as_ref p a = .Path P ∧
        a.len = path_offset p + P.length + (if P.length < max_path_len p then 1 else 0) ∧
        (P.length < max_path_len p → a.sun_path.getD P.length 0 = 0)) := by
  refine ⟨?_, ?_, ?_, ?_⟩
  · rintro rfl
    rfl
  · intro hlong
    rw [max_path_len] at hlong
    have hne : ¬ P.isEmpty = true := by
      rcases P with _ | ⟨x, t⟩
      · exact absurd hlong (by simp [Nat.not_lt.mpr (Nat.zero_le _)])
      · simp
    unfold from_path
    rw [if_neg hne, if_pos hlong]
  · intro hlen hmem
    rw [max_path_len] at hlen
    have hne : ¬ P.isEmpty = true := by
      rcases P with _ | ⟨x, t⟩
      · exact absurd hmem (by simp)
      · simp
    have hany : P.any (fun b => b = 0) = true := by
      rw [List.any_eq_true]
      exact ⟨0, hmem, by simp⟩
    unfold from_path
    rw [if_neg hne, if_neg (by omega), if_pos (by simp [hany])]
  · intro hne hlen hnul
    rw [max_path_len] at hlen
    have hnee : ¬ P.isEmpty = true := by
      rcases P with _ | ⟨x, t⟩
      · exact absurd rfl hne
      · simp
    have hany : ¬ P.any (fun b => b = 0) = true := by
      rw [List.any_eq_true]
      rintro ⟨x, hx, hx0⟩
      rw [decide_eq_true_eq] at hx0
      exact hnul (hx0 ▸ hx)
    have hfp : from_path p P = .ok
        ⟨AF_UNIX, P ++ List.replicate (p.capacity - P.length) 0,
          if P.length < p.capacity then path_offset p + P.length + 1
          else path_offset p + P.length⟩ := by
      unfold from_path
      rw [if_neg hnee, if_neg (by omega), if_neg hany]
      have hzip : zipOverwrite (new_unspecified p).sun_path P
          = P ++ List.replicate (p.capacity - P.length) 0 :=
        zipOverwrite_replicate_zero hlen
      rw [hzip]
      rcases Nat.lt_or_ge P.length p.capacity with hcase | hcase
      · simp [new_unspecified, hcase]
      · simp [new_unspecified, Nat.not_lt.mpr hcase]
    refine ⟨_, hfp, ?_, ?_, ?_⟩
    · rcases Nat.lt_or_ge P.length p.capacity with hcase | hcase
      · rw [if_pos hcase, path_offset_eq]
        exact view_path_core p AF_UNIX P (p.capacity - P.length) 1 hne hnul
          (Or.inr ⟨rfl, by omega⟩)
      · have hv := view_path_core p AF_UNIX P (p.capacity - P.length) 0 hne hnul (Or.inl rfl)
        rw [if_neg (Nat.not_lt.mpr hcase), path_offset_eq]
        exact hv
    · rw [max_path_len]
      rcases Nat.lt_or_ge P.length p.capacity with hcase | hcase
      · rw [if_pos hcase, if_pos hcase]
      · rw [if_neg (Nat.not_lt.mpr hcase), if_neg (Nat.not_lt.mpr hcase)]
        rfl
    · intro hlt
      rw [max_path_len] at hlt
      rw [List.getD_eq_getElem?_getD, List.getElem?_append_right (Nat.le_refl _)]
      simp [List.getElem?_replicate, Nat.sub_pos_of_lt hlt]

/-- C2 witness: `from_path` on the concrete path `"/tmp"` succeeds with kind
`Path "/tmp"`, a terminating NUL appended, and `used_length = offset + 4 + 1`. -/
theorem C2_from_path_witness :
    ∃ a, from_path linuxP [47, 116, 109, 112] = .ok a ∧
      as_ref linuxP a = .Path [47, 116, 109, 112] ∧
      a.len = path_offset linuxP + ([47, 116, 109, 112] : List Nat).length
        + (if ([47, 116, 109, 112] : List Nat).length < max_path_len linuxP then 1 else 0) ∧
      (([47, 116, 109, 112] : List Nat).length < max_path_len linuxP →
        a.sun_path.getD ([47, 116, 109, 112] : List Nat).length 0 = 0) :=
  (C2_from_path linuxP [47, 116, 109, 112]).2.2.2 (by decide) (by decide) (by decide)

/-- C5: `from_abstract` fails with `AddrNotAvailable` on platforms without
abstract addresses regardless of the name, with `InvalidInput` when the name
is longer than `max_abstract_len()`, and otherwise succeeds with one NUL
marker byte followed by the name, `used_length = offset + 1 + N.length`, and
derived kind `Abstract N`. -/
theorem C5_from_abstract (p : Platform) (N : List Nat) :
    (p.hasAbstract = false →
      from_abstract p N = .error ⟨.AddrNotAvailable,
        "abstract unix domain socket addresses are not available on " ++ p.osName⟩) ∧
    (p.hasAbstract = true → N.length > max_abstract_len p →
      from_abstract p N = .error ⟨.InvalidInput, "abstract name is too long"⟩) ∧
    (p.hasAbstract = true → N.length ≤ max_abstract_len p →
      ∃ a, from_abstract p N = .ok a ∧
        a.sun_path = 0 :: (N ++ List.replicate (p.capacity - 1 - N.length) 0) ∧
        a.len = path_offset p + 1 + N.length ∧
        as_ref p a = .Abstract N) := by
  refine ⟨?_, ?_, ?_⟩
  · intro hA
    unfold from_abstract
    rw [if_pos (by simp [has_abstract_addresses, hA])]
  · intro hA hlong
    unfold from_abstract
    rw [if_neg (by simp [has_abstract_addresses, hA]), if_pos hlong]
  · intro hA hlen
    rw [max_abstract_len] at hlen
    have hcap : 0 < p.capacity := p.capacity_pos
    have hsp : (new_unspecified p).sun_path.take 1
        ++ zipOverwrite ((new_unspecified p).sun_path.drop 1) N
        = 0 :: (N ++ List.replicate (p.capacity - 1 - N.length) 0) := by
      show (List.replicate p.capacity (0:Nat)).take 1
        ++ zipOverwrite ((List.replicate p.capacity (0:Nat)).drop 1) N
        = 0 :: (N ++ List.replicate (p.capacity - 1 - N.length) 0)
      rw [List.take_replicate, List.drop_replicate,
        zipOverwrite_replicate_zero (by omega)]
      have hone : min 1 p.capacity = 1 := by omega
      rw [hone, List.replicate_one]
      rfl
    have hfa : from_abstract p N = .ok
        ⟨AF_UNIX, 0 :: (N ++ List.replicate (p.capacity - 1 - N.length) 0),
          path_offset p + 1 + N.length⟩ := by
      unfold from_abstract
      rw [if_neg (by simp [has_abstract_addresses, hA]),
        if_neg (by rw [max_abstract_len]; omega), hsp]
      rfl
    refine ⟨_, hfa, rfl, rfl, ?_⟩
    rw [path_offset_eq]
    exact view_abstract_core p AF_UNIX N (p.capacity - 1 - N.length)

/-- C5 witness: `from_abstract` on the concrete name `"ab"` on Linux succeeds
with the NUL marker byte, `used_length = offset + 3`, and kind
`Abstract "ab"`. -/
theorem C5_from_abstract_witness :
    ∃ a, from_abstract linuxP [97, 98] = .ok a ∧
      a.sun_path = 0 :: ([97, 98] ++ List.replicate (linuxP.capacity - 1
        - ([97, 98] : List Nat).length) 0) ∧
      a.len = path_offset linuxP + 1 + ([97, 98] : List Nat).length ∧
      as_ref linuxP a = .Abstract [97, 98] :=
  (C5_from_abstract linuxP [97, 98]).2.2 rfl (by decide)

theorem as_ref_new_unspecified (p : Platform) :
    as_ref p (new_unspecified p) = .Unnamed := by
  have hle : (new_unspecified p).len ≤ path_offset p := by
    rw [path_offset_eq]
    exact p.famSize_le_offset
  unfold as_ref UnixSocketAddrRef.from
  simp [hle]

/-- C6: `new` delegates a leading `'@'` (64) or NUL byte to `from_abstract`
on the remainder, yields the unnamed address on empty input, and delegates
to `from_path` on the whole input otherwise, propagating inner errors;
consequently `new "@abstract"` yields `Abstract "abstract"` on Linux and an
error on macOS, `new "./@path"` yields `Path "./@path"`, and `new ""`
derives Unnamed. -/
theorem C6_new (p : Platform) (b : List Nat) :
    (b = [] → new p b = .ok (new_unspecified p) ∧
      as_ref p (new_unspecified p) = .Unnamed) ∧
    (∀ rest, b = 64 :: rest → new p b = from_abstract p rest) ∧
    (∀ rest, b = 0 :: rest → new p b = from_abstract p rest) ∧
    (∀ first rest, b = first :: rest → first ≠ 64 → first ≠ 0 →
      new p b = from_path p b) ∧
    (∃ a, new linuxP [64, 97, 98, 115, 116, 114, 97, 99, 116] = .ok a ∧
      as_ref linuxP a = .Abstract [97, 98, 115, 116, 114, 97, 99, 116]) ∧
    (∃ e, new macosP [64, 97, 98, 115, 116, 114, 97, 99, 116] = .error e) ∧
    (∃ a, new linuxP [46, 47, 64, 112, 97, 116, 104] = .ok a ∧
      as_ref linuxP a = .Path [46, 47, 64, 112, 97, 116, 104]) := by
  refine ⟨?_, ?_, ?_, ?_, ?_, ?_, ?_⟩
  · rintro rfl
    exact ⟨rfl, as_ref_new_unspecified p⟩
  · rintro rest rfl
    simp [new]
  · rintro rest rfl
    simp [new]
  · rintro first rest rfl h64 h0
    simp [new, h64, h0]
  · exact ⟨_, rfl, by decide⟩
  · exact ⟨_, rfl⟩
  · exact ⟨_, rfl, by decide⟩

/-- C6 witness: `new` on the empty byte string yields the unnamed address,
whose derived kind is Unnamed. -/
theorem C6_new_witness :
    new linuxP [] = .ok (new_unspecified linuxP) ∧
    as_ref linuxP (new_unspecified linuxP) = .Unnamed :=
  (C6_new linuxP []).1 rfl

theorem refEq_self (x : UnixSocketAddrRef) : refEq x x = true := by
  cases x <;> simp [refEq]

theorem hashView_eq_of_refEq {x y : UnixSocketAddrRef} (h : refEq x y = true) :
    hashView x = hashView y := by
  cases x <;> cases y <;> simp_all [refEq, hashView]

/-- C7 counterexample: the program-constructible values `from_path "/a//b"`
and `from_path "/a/b"` compare equal (std `Path` equality is
component-based, collapsing the repeated separator), yet their derived views
carry different payload bytes — so equality does not hold "iff the derived
AddressKind and payload bytes match". -/
theorem C7_counterexample :
    from_path linuxP [47, 97, 47, 47, 98]
      = .ok ⟨AF_UNIX, [47, 97, 47, 47, 98] ++ List.replicate 103 0, 8⟩ ∧
    from_path linuxP [47, 97, 47, 98]
      = .ok ⟨AF_UNIX, [47, 97, 47, 98] ++ List.replicate 104 0, 7⟩ ∧
    beqAddr linuxP ⟨AF_UNIX, [47, 97, 47, 47, 98] ++ List.replicate 103 0, 8⟩
      ⟨AF_UNIX, [47, 97, 47, 98] ++ List.replicate 104 0, 7⟩ = true ∧
    as_ref linuxP ⟨AF_UNIX, [47, 97, 47, 47, 98] ++ List.replicate 103 0, 8⟩
      = .Path [47, 97, 47, 47, 98] ∧
    as_ref linuxP ⟨AF_UNIX, [47, 97, 47, 98] ++ List.replicate 104 0, 7⟩
      = .Path [47, 97, 47, 98] ∧
    as_ref linuxP ⟨AF_UNIX, [47, 97, 47, 47, 98] ++ List.replicate 103 0, 8⟩
      ≠ as_ref linuxP ⟨AF_UNIX, [47, 97, 47, 98] ++ List.replicate 104 0, 7⟩ :=
  ⟨rfl, rfl, by decide, by decide, by decide, by decide⟩

/-- C7 (amended): `a == b` holds iff the derived kinds match and the
payloads compare equal under their own equality — component-based
`std::path::Path` equality for `Path` payloads, byte equality for
`Abstract` payloads; hashing is a function of that same component-level
view, so equal values hash equally; unused trailing buffer bytes never
affect the derived view (hence neither equality nor hashing); and a `Path`
value with one optional trailing NUL byte at a correspondingly larger used
length has the same view, equality class, and hash as the one without it. -/
theorem C7_eq_hash (p : Platform) (a b : UnixSocketAddr) :
    (beqAddr p a b = true ↔
      ((as_ref p a = .Unnamed ∧ as_ref p b = .Unnamed) ∨
       (∃ p₁ p₂, as_ref p a = .Path p₁ ∧ as_ref p b = .Path p₂ ∧
         pathComponents p₁ = pathComponents p₂) ∨
       (∃ n₁ n₂, as_ref p a = .Abstract n₁ ∧ as_ref p b = .Abstract n₂ ∧
         n₁ = n₂))) ∧
    (∀ (H : Type) (hasher : RefHashData → H),
      beqAddr p a b = true → hashAddr p hasher a = hashAddr p hasher b) ∧
    (a.len = b.len →
      a.sun_path.take (a.len - path_offset p) = b.sun_path.take (a.len - path_offset p) →
      as_ref p a = as_ref p b ∧ beqAddr p a b = true) ∧
    (∀ (P : List Nat), P ≠ [] → 0 ∉ P → P.length < p.capacity →
      as_ref p ⟨AF_UNIX, P ++ List.replicate (p.capacity - P.length) 0,
        p.offset + P.length⟩ = .Path P ∧
      as_ref p ⟨AF_UNIX, P ++ List.replicate (p.capacity - P.length) 0,
        p.offset + P.length + 1⟩ = .Path P ∧
      beqAddr p
        ⟨AF_UNIX, P ++ List.replicate (p.capacity - P.length) 0, p.offset + P.length⟩
        ⟨AF_UNIX, P ++ List.replicate (p.capacity - P.length) 0, p.offset + P.length + 1⟩
        = true) := by
  refine ⟨?_, ?_, ?_, ?_⟩
  · unfold beqAddr
    rcases as_ref p a with _ | p₁ | n₁ <;> rcases as_ref p b with _ | p₂ | n₂ <;>
      simp [refEq]
  · intro H hasher hbeq
    unfold hashAddr
    rw [hashView_eq_of_refEq hbeq]
  · intro hlen hpath
    have hview : as_ref p a = as_ref p b := by
      unfold as_ref
      rw [hlen] at hpath
      exact view_locality p a b hlen hpath
    exact ⟨hview, by unfold beqAddr; rw [hview]; exact refEq_self _⟩
  · intro P hne hnul hlt
    have h1 : as_ref p ⟨AF_UNIX, P ++ List.replicate (p.capacity - P.length) 0,
        p.offset + P.length⟩ = .Path P :=
      view_path_core p AF_UNIX P (p.capacity - P.length) 0 hne hnul (Or.inl rfl)
    have h2 : as_ref p ⟨AF_UNIX, P ++ List.replicate (p.capacity - P.length) 0,
        p.offset + P.length + 1⟩ = .Path P :=
      view_path_core p AF_UNIX P (p.capacity - P.length) 1 hne hnul
        (Or.inr ⟨rfl, by omega⟩)
    refine ⟨h1, h2, ?_⟩
    unfold beqAddr
    rw [show as_ref p ⟨AF_UNIX, P ++ List.replicate (p.capacity - P.length) 0,
        p.offset + P.length⟩ = UnixSocketAddrRef.Path P from h1,
      show as_ref p ⟨AF_UNIX, P ++ List.replicate (p.capacity - P.length) 0,
        p.offset + P.length + 1⟩ = UnixSocketAddrRef.Path P from h2]
    exact refEq_self _

/-- C7 witness: a concrete `"/t"` path buffer without a trailing NUL equals,
and has the same view as, the same buffer with the trailing NUL counted in
the used length. -/
theorem C7_eq_hash_witness :
    as_ref linuxP ⟨AF_UNIX, [47, 116] ++ List.replicate (linuxP.capacity
      - ([47, 116] : List Nat).length) 0,
      linuxP.offset + ([47, 116] : List Nat).length⟩ = .Path [47, 116] ∧
    as_ref linuxP ⟨AF_UNIX, [47, 116] ++ List.replicate (linuxP.capacity
      - ([47, 116] : List Nat).length) 0,
      linuxP.offset + ([47, 116] : List Nat).length + 1⟩ = .Path [47, 116] ∧
    beqAddr linuxP
      ⟨AF_UNIX, [47, 116] ++ List.replicate (linuxP.capacity
        - ([47, 116] : List Nat).length) 0,
        linuxP.offset + ([47, 116] : List Nat).length⟩
      ⟨AF_UNIX, [47, 116] ++ List.replicate (linuxP.capacity
        - ([47, 116] : List Nat).length) 0,
        linuxP.offset + ([47, 116] : List Nat).length + 1⟩ = true :=
  (C7_eq_hash linuxP (new_unspecified linuxP) (new_unspecified linuxP)).2.2.2
    [47, 116] (by decide) (by decide) (by decide)

theorem is_abstract_eq_false_of_is_path (p : Platform) (a : UnixSocketAddr)
    (h : is_path p a = true) : is_abstract p a = false := by
  unfold is_path at h
  unfold is_abstract
  rcases Bool.and_eq_true _ _ |>.mp h with ⟨h1, h2⟩
  rw [decide_eq_true_eq, List.getD_eq_getElem?_getD] at h2
  by_cases hA : has_abstract_addresses p = true
  · simp [hA, h2]
  · rw [Bool.not_eq_true] at hA
    simp [hA]

theorem new_from_ffi_of_ok {R : Type} (p : Platform)
    (call : UnixSocketAddr → Except IOError (R × UnixSocketAddr))
    (r : R) (a : UnixSocketAddr)
    (hcall : call { new_unspecified p with len := size_of_sockaddr_un p } = .ok (r, a)) :
    new_from_ffi p call = ffi_validate p r a := by
  unfold new_from_ffi
  rw [hcall]

theorem new_from_ffi_of_error {R : Type} (p : Platform)
    (call : UnixSocketAddr → Except IOError (R × UnixSocketAddr))
    (e : IOError)
    (hcall : call { new_unspecified p with len := size_of_sockaddr_un p } = .error e) :
    new_from_ffi p call = .error e := by
  unfold new_from_ffi
  rw [hcall]

/-- C3: in `new_from_ffi`, when the operation succeeds with the Unix-domain
family tag and a Path-kind buffer: a reported length above `capacity + 1`
fails with `InvalidData` ("path was too long"); a reported length equal to
`capacity` or `capacity + 1` succeeds with the length clamped to exactly
`capacity`; a reported length below `capacity` whose last content byte is
not NUL is extended by one with a terminating NUL written, never exceeding
`capacity`. -/
theorem C3_new_from_ffi_path {R : Type} (p : Platform)
    (call : UnixSocketAddr → Except IOError (R × UnixSocketAddr))
    (r : R) (a : UnixSocketAddr)
    (hcall : call { new_unspecified p with len := size_of_sockaddr_un p } = .ok (r, a))
    (hfam : a.sun_family = AF_UNIX)
    (hpath : is_path p a = true) :
    (a.len > size_of_sockaddr_un p + 1 →
      new_from_ffi p call = .error ⟨.InvalidData, "path was too long"⟩) ∧
    ((a.len = size_of_sockaddr_un p ∨ a.len = size_of_sockaddr_un p + 1) →
      new_from_ffi p call = .ok (r, { a with len := size_of_sockaddr_un p })) ∧
    (a.len < size_of_sockaddr_un p →
      a.sun_path.getD (a.len - 1 - path_offset p) 0 ≠ 0 →
      new_from_ffi p call = .ok (r, { a with
        len := a.len + 1,
        sun_path := a.sun_path.set (a.len - path_offset p) 0 }) ∧
      a.len + 1 ≤ size_of_sockaddr_un p) := by
  have habs : is_abstract p a = false := is_abstract_eq_false_of_is_path p a hpath
  have hred : new_from_ffi p call =
      (if a.len > size_of_sockaddr_un p + 1 then
        .error ⟨.InvalidData, "path was too long"⟩
      else if a.len ≥ size_of_sockaddr_un p then
        .ok (r, { a with len := size_of_sockaddr_un p })
      else if a.sun_path.getD (a.len - 1 - path_offset p) 0 ≠ 0 then
        .ok (r, { a with
          len := a.len + 1,
          sun_path := a.sun_path.set (a.len - path_offset p) 0 })
      else .ok (r, a)) := by
    rw [new_from_ffi_of_ok p call r a hcall]
    unfold ffi_validate
    rw [if_neg (by simp [hfam]), if_neg (by simp [habs]), if_pos hpath]
  refine ⟨?_, ?_, ?_⟩
  · intro hlong
    rw [hred, if_pos hlong]
  · intro hcase
    rw [hred, if_neg (by omega), if_pos (by omega)]
  · intro hlt hbyte
    rw [hred, if_neg (by omega), if_neg (by omega), if_pos hbyte]
    exact ⟨rfl, by omega⟩

/-- C3 witness: a simulated kernel callback reporting `AF_UNIX` and length
`capacity + 1 = 111` for a path filling the whole buffer succeeds with the
length clamped to `capacity = 110`. -/
theorem C3_new_from_ffi_path_witness :
    new_from_ffi linuxP (fun _ => (.ok ((),
        ⟨AF_UNIX, List.replicate 108 65, 111⟩) :
      Except IOError (Unit × UnixSocketAddr)))
      = .ok ((), { (⟨AF_UNIX, List.replicate 108 65, 111⟩ : UnixSocketAddr) with
          len := size_of_sockaddr_un linuxP }) :=
  (C3_new_from_ffi_path linuxP _ () ⟨AF_UNIX, List.replicate 108 65, 111⟩
    rfl rfl (by decide)).2.1 (Or.inr (by decide))

/-- C4: `new_from_ffi` initializes the buffer to an unspecified address with
length set to the full structure capacity, propagates any failure of the
caller-supplied operation unchanged, fails with `InvalidData` when the
resulting family tag is not the Unix-domain constant, and fails with
`InvalidData` when the resulting kind is Abstract with a reported length
exceeding the capacity. -/
theorem C4_new_from_ffi_errors (p : Platform) :
    (({ new_unspecified p with len := size_of_sockaddr_un p } : UnixSocketAddr)
      = ⟨AF_UNIX, List.replicate p.capacity 0, p.offset + p.capacity⟩) ∧
    (∀ (R : Type) (call : UnixSocketAddr → Except IOError (R × UnixSocketAddr))
        (e : IOError),
      call { new_unspecified p with len := size_of_sockaddr_un p } = .error e →
      new_from_ffi p call = .error e) ∧
    (∀ (R : Type) (call : UnixSocketAddr → Except IOError (R × UnixSocketAddr))
        (r : R) (a : UnixSocketAddr),
      call { new_unspecified p with len := size_of_sockaddr_un p } = .ok (r, a) →
      a.sun_family ≠ AF_UNIX →
      new_from_ffi p call
        = .error ⟨.InvalidData, "file descriptor did not correspond to a Unix socket"⟩) ∧
    (∀ (R : Type) (call : UnixSocketAddr → Except IOError (R × UnixSocketAddr))
        (r : R) (a : UnixSocketAddr),
      call { new_unspecified p with len := size_of_sockaddr_un p } = .ok (r, a) →
      a.sun_family = AF_UNIX → is_abstract p a = true →
      a.len > size_of_sockaddr_un p →
      new_from_ffi p call = .error ⟨.InvalidData, "abstract name was too long"⟩) ∧
    (∀ (R : Type) (call : UnixSocketAddr → Except IOError (R × UnixSocketAddr))
        (r : R) (a : UnixSocketAddr),
      call { new_unspecified p with len := size_of_sockaddr_un p } = .ok (r, a) →
      is_abstract p a = true → a.len > size_of_sockaddr_un p →
      ∃ m, new_from_ffi p call = .error ⟨.InvalidData, m⟩) := by
  refine ⟨rfl, ?_, ?_, ?_, ?_⟩
  · intro R call e hcall
    exact new_from_ffi_of_error p call e hcall
  · intro R call r a hcall hfam
    rw [new_from_ffi_of_ok p call r a hcall]
    unfold ffi_validate
    rw [if_pos hfam]
  · intro R call r a hcall hfam habs hlong
    rw [new_from_ffi_of_ok p call r a hcall]
    unfold ffi_validate
    rw [if_neg (by simp [hfam]), if_pos habs, if_pos hlong]
  · intro R call r a hcall habs hlong
    rw [new_from_ffi_of_ok p call r a hcall]
    unfold ffi_validate
    by_cases hfam : a.sun_family = AF_UNIX
    · rw [if_neg (by simp [hfam]), if_pos habs, if_pos hlong]
      exact ⟨_, rfl⟩
    · rw [if_pos hfam]
      exact ⟨_, rfl⟩

/-- C4 witness: a failing operation's error is propagated unchanged by
`new_from_ffi`. -/
theorem C4_new_from_ffi_errors_witness :
    new_from_ffi linuxP (fun _ => (.error ⟨.NotFound, "boom"⟩ :
      Except IOError (Unit × UnixSocketAddr))) = .error ⟨.NotFound, "boom"⟩ :=
  (C4_new_from_ffi_errors linuxP).2.1 Unit _ ⟨.NotFound, "boom"⟩ rfl

/-- C8: evaluation of `from_raw` at concrete inputs.  The NULL-pointer,
length-range and family-tag validations behave as the claim states, and a
NULL pointer with length 0 yields the unnamed address; but on the success
path the code copies a source slice of `len` bytes into the
`capacity`-byte `sun_path` array with `copy_from_slice`, which panics for
the valid length `path_offset() = 2` where the claim requires success. -/
theorem C8_from_raw_eval :
    from_raw linuxP (some ⟨AF_UNIX, List.replicate 110 0⟩) 2
      = .panicked "source slice length does not match destination slice length" ∧
    from_raw linuxP none 0 = .ok (new_unspecified linuxP) ∧
    as_ref linuxP (new_unspecified linuxP) = .Unnamed ∧
    from_raw linuxP none 5 = .err ⟨.InvalidInput, "addr is NULL"⟩ ∧
    from_raw linuxP (some ⟨AF_UNIX, List.replicate 110 0⟩) 1
      = .err ⟨.InvalidInput, "address length is too low"⟩ ∧
    from_raw linuxP (some ⟨AF_UNIX, List.replicate 110 0⟩) 111
      = .err ⟨.InvalidInput, "address is too long"⟩ ∧
    from_raw linuxP (some ⟨2, List.replicate 110 0⟩) 2
      = .err ⟨.InvalidData, "not an unix socket address"⟩ := by
  decide

/-- C1: for every buffer satisfying the RawAddressBuffer invariant
(`offset ≤ used_length ≤ offset + capacity`, `sun_path` of exactly `capacity`
bytes), the view derivation returns exactly the kind given by the spec's §4.3
rule, and it reads no byte at or past `used_length`: the view depends only on
`len` and the first `len - offset` bytes of `sun_path` (totality holds by
construction of the Lean function). -/
theorem C1_view_derivation (p : Platform) (a : UnixSocketAddr) (h : Inv p a) :
    UnixSocketAddrRef.from p a = specView p a ∧
    (∀ b : UnixSocketAddr, b.len = a.len →
      b.sun_path.take (a.len - path_offset p) = a.sun_path.take (a.len - path_offset p) →
      UnixSocketAddrRef.from p b = UnixSocketAddrRef.from p a) := by
  obtain ⟨hsp, hlo, hhi⟩ := h
  refine ⟨?_, fun b hl hp => view_locality p b a hl hp⟩
  unfold UnixSocketAddrRef.from specView
  rw [path_offset_eq]
  by_cases hle : a.len ≤ p.offset
  · simp [hle]
  · by_cases h0 : a.sun_path.getD 0 0 = 0
    · simp [hle, List.getD] at h0 ⊢
      simp [h0]
    · have hslice : (a.sun_path.take (a.len - p.offset)).length = a.len - p.offset := by
        rw [List.length_take, hsp]
        omega
      rw [List.getD] at h0
      by_cases hlast : (a.sun_path.take (a.len - p.offset)).getLast? = some 0
      · simp only [hle, if_false, List.getD, h0, hlast, if_true]
        rw [List.dropLast_eq_take, hslice]
      · simp [hle, List.getD, h0, hlast]

/-- C1 witness: the view derivation at a concrete path buffer
(`"/t"` plus terminating NUL at `used_length 5`) agrees with the §4.3 rule. -/
theorem C1_view_derivation_witness :
    UnixSocketAddrRef.from linuxP ⟨1, 47 :: 116 :: List.replicate 106 0, 5⟩
      = specView linuxP ⟨1, 47 :: 116 :: List.replicate 106 0, 5⟩ :=
  (C1_view_derivation linuxP ⟨1, 47 :: 116 :: List.replicate 106 0, 5⟩
    ⟨by decide, by decide, by decide⟩).1

/-- C9 counterexample: on macOS the family-tag size (1) differs from the path
offset (2), and `new_unspecified` sets `len` to the family-tag size, not to
the offset as the claim states. -/
theorem C9_counterexample :
    (new_unspecified macosP).len ≠ macosP.offset := by decide

/-- C9 (amended): `new_unspecified()` returns a zero-filled buffer whose
family tag is the Unix-domain constant and whose `used_length` equals
`size_of::<sa_family_t>()`, which is at most the path offset (and equal to it
on platforms such as Linux where nothing else precedes the path buffer); its
derived kind is always Unnamed. -/
theorem C9_new_unspecified (p : Platform) :
    (new_unspecified p).sun_family = AF_UNIX ∧
    (new_unspecified p).sun_path = List.replicate p.capacity 0 ∧
    (new_unspecified p).len = p.famSize ∧
    p.famSize ≤ path_offset p ∧
    as_ref p (new_unspecified p) = .Unnamed := by
  refine ⟨rfl, rfl, rfl, ?_, ?_⟩
  · rw [path_offset_eq]
    exact p.famSize_le_offset
  · have hle : (new_unspecified p).len ≤ path_offset p := by
      rw [path_offset_eq]
      exact p.famSize_le_offset
    unfold as_ref UnixSocketAddrRef.from
    simp [hle]

/-- C10: on an abstract-supporting platform, for every buffer satisfying the
invariant, exactly one of `is_unnamed`, `is_path`, `is_abstract` is true, and
the true one agrees with the derived view. -/
theorem C10_kind_predicates (p : Platform) (a : UnixSocketAddr)
    (hA : p.hasAbstract = true) (_hinv : Inv p a) :
    ((if is_unnamed p a then 1 else 0) + (if is_path p a then 1 else 0)
        + (if is_abstract p a then 1 else 0) = 1) ∧
    (is_unnamed p a = true ↔ as_ref p a = .Unnamed) ∧
    (is_path p a = true ↔ ∃ q, as_ref p a = .Path q) ∧
    (is_abstract p a = true ↔ ∃ n, as_ref p a = .Abstract n) := by
  unfold is_unnamed is_path is_abstract as_ref UnixSocketAddrRef.from has_abstract_addresses
  by_cases hle : a.len ≤ path_offset p
  · simp [hA, hle, Nat.not_lt.mpr hle]
  · by_cases h0 : a.sun_path.getD 0 0 = 0
    · rw [List.getD_eq_getElem?_getD] at h0
      simp [hA, hle, Nat.lt_of_not_le hle, h0]
    · rw [List.getD_eq_getElem?_getD] at h0
      by_cases hlast : (a.sun_path.take (a.len - path_offset p)).getLast? = some 0
      · simp [hA, hle, Nat.lt_of_not_le hle, h0, hlast]
      · simp [hA, hle, Nat.lt_of_not_le hle, h0, hlast]

/-- C10 witness: the three predicates at a concrete abstract address
(`"\0a"` content, `used_length 4`) sum to exactly one true. -/
theorem C10_kind_predicates_witness :
    (if is_unnamed linuxP ⟨1, 0 :: 97 :: List.replicate 106 0, 4⟩ then 1 else 0)
      + (if is_path linuxP ⟨1, 0 :: 97 :: List.replicate 106 0, 4⟩ then 1 else 0)
      + (if is_abstract linuxP ⟨1, 0 :: 97 :: List.replicate 106 0, 4⟩ then 1 else 0) = 1 :=
  (C10_kind_predicates linuxP ⟨1, 0 :: 97 :: List.replicate 106 0, 4⟩ rfl
    ⟨by decide, by decide, by decide⟩).1

end Uds
